import Mathlib

/-!
Verification development for the mcp-monitoring repository.

The TypeScript sources are shallowly embedded as Lean definitions:
strings are `List Char`, machine time is `Int` (epoch milliseconds),
fallible external calls (network fetch, analysis-service invocation,
cryptographic digest) are passed in as explicit parameters, and the
stateful pieces (check state, dependency cache) are made explicit
state-passing functions.
-/

namespace McpMonitoring

/-! ## Normalizer / Hasher (source-checker `hashContent`)

The source normalizes page content before hashing:
`content.replace(/\s+/g, ' ').replace(/\d{4}-\d{2}-\d{2}T\d{2}:\d{2}:\d{2}/g, '[timestamp]').trim()`
and then applies a sha256 digest truncated to 16 hex characters.  The
digest itself is an external library call (`crypto.createHash`), modelled
here as an explicit function parameter `digest`. -/

/-- Whitespace class of the JavaScript `\s` regex (ASCII part) and of
`String.prototype.trim`. -/
def isWs (c : Char) : Bool :=
  c == ' ' || c == '\t' || c == '\n' || c == '\r' || c == '\x0b' || c == '\x0c'

/-- State-passing core of `.replace(/\s+/g, ' ')`: the Boolean argument
records whether the previously consumed character was whitespace (in which
case further whitespace of the same run produces no output). -/
def collapseWsAux (prevWs : Bool) : List Char → List Char
  | [] => []
  | c :: cs =>
    if isWs c then
      if prevWs then collapseWsAux true cs
      else ' ' :: collapseWsAux true cs
    else c :: collapseWsAux false cs

/-- Replaces every maximal whitespace run by a single space, the
`.replace(/\s+/g, ' ')` step of `hashContent`. -/
def collapseWs (s : List Char) : List Char := collapseWsAux false s

/-- Decimal digit test, the JavaScript `\d` class. -/
def isDigitChar (c : Char) : Bool := '0' ≤ c && c ≤ '9'

/-- Character admissible at position `i` (0-based) of the 19-character
timestamp pattern `\d{4}-\d{2}-\d{2}T\d{2}:\d{2}:\d{2}`. -/
def patCharAt (i : Nat) (c : Char) : Bool :=
  if i = 4 ∨ i = 7 then c == '-'
  else if i = 10 then c == 'T'
  else if i = 13 ∨ i = 16 then c == ':'
  else isDigitChar c

/-- Whether `l` is exactly a match of the timestamp regex
`\d{4}-\d{2}-\d{2}T\d{2}:\d{2}:\d{2}` (fixed length 19). -/
def tsShape (l : List Char) : Bool :=
  l.length == 19 && (List.range 19).all (fun i => patCharAt i (l.getD i ' '))

/-- The fixed replacement text of the timestamp rewrite. -/
def tsRepl : List Char := '[' :: 't' :: 'i' :: 'm' :: 'e' :: 's' :: 't' :: 'a' :: 'm' :: 'p' :: [']']

/-- Fuel-indexed scan of the global regex replace
`.replace(/\d{4}-\d{2}-\d{2}T\d{2}:\d{2}:\d{2}/g, '[timestamp]')`:
leftmost matches, non-overlapping, scan resumes after each replacement.
Each step consumes at least one character, so any fuel of at least the
input length gives the full scan (`replaceTimestampsF_fuel`). -/
def replaceTimestampsF : Nat → List Char → List Char
  | _, [] => []
  | 0, s => s
  | fuel + 1, c :: cs =>
    if tsShape ((c :: cs).take 19) then
      tsRepl ++ replaceTimestampsF fuel ((c :: cs).drop 19)
    else c :: replaceTimestampsF fuel cs

/-- The timestamp-replacement pass itself. -/
def replaceTimestamps (s : List Char) : List Char :=
  replaceTimestampsF s.length s

/-- Removes leading whitespace, half of `String.prototype.trim`. -/
def dropLeadWs (s : List Char) : List Char := s.dropWhile isWs

/-- The `.trim()` step: removes leading and trailing whitespace. -/
def trimChars (s : List Char) : List Char :=
  ((dropLeadWs s).reverse.dropWhile isWs).reverse

/-- Normalization pipeline applied by `hashContent` before digesting:
whitespace-run collapse, then timestamp replacement, then trim. -/
def normalizeContent (content : List Char) : List Char :=
  trimChars (replaceTimestamps (collapseWs content))

/-- The `hashContent` function of the source checker.  `digest` stands for
the external `sha256`-then-truncate-to-16-hex-chars library call; the
repository code applies it to the normalized content. -/
def hashContent (digest : List Char → List Char) (content : List Char) : List Char :=
  digest (normalizeContent content)

/-! ## `extractTextContent` (source-checker HTML-to-text step)

The source strips `<script>`/`<style>` blocks, removes tags, decodes a
fixed set of HTML entities, and normalizes whitespace. -/

/-- Case-insensitive character comparison, for the `i` regex flag. -/
def lowerEq (a b : Char) : Bool := a.toLower == b.toLower

/-- Whether `pat` matches at the start of `s`, ignoring case. -/
def ciPrefMatch : List Char → List Char → Bool
  | [], _ => true
  | _ :: _, [] => false
  | p :: ps, c :: cs => lowerEq p c && ciPrefMatch ps cs

/-- Consumes the `[^>]*>` part of an opening-tag pattern: skips characters
up to and including the first `>`, or fails when no `>` remains. -/
def skipToGt : List Char → Option (List Char)
  | [] => none
  | c :: cs => if c == '>' then some cs else skipToGt cs

/-- Finds the first case-insensitive occurrence of `pat` and returns the
suffix after it (the lazy `[\s\S]*?pat` search).  For a match at the head,
`pat.length - 1` characters of the tail are additionally dropped, which
for nonempty patterns is exactly the remainder after the match. -/
def dropThroughCI (pat : List Char) : List Char → Option (List Char)
  | [] => none
  | c :: cs =>
    if ciPrefMatch pat (c :: cs) then some (cs.drop (pat.length - 1))
    else dropThroughCI pat cs

/-- One global-replace pass of `/<open[^>]*>[\s\S]*?<close>/gi` replaced by
the empty string; used for the script- and style-elision steps.  Fuel
counts down at least one character per step; `removeBlocks` starts it at
the input length, which always suffices. -/
def removeBlocksF (openPat closePat : List Char) : Nat → List Char → List Char
  | _, [] => []
  | 0, s => s
  | fuel + 1, c :: cs =>
    if ciPrefMatch openPat (c :: cs) then
      match skipToGt ((c :: cs).drop openPat.length) with
      | some afterOpen =>
        match dropThroughCI closePat afterOpen with
        | some rest => removeBlocksF openPat closePat fuel rest
        | none => c :: removeBlocksF openPat closePat fuel cs
      | none => c :: removeBlocksF openPat closePat fuel cs
    else c :: removeBlocksF openPat closePat fuel cs

/-- Script/style elision pass. -/
def removeBlocks (openPat closePat : List Char) (s : List Char) : List Char :=
  removeBlocksF openPat closePat s.length s

/-- Scans past the `[^>]+` body of a tag up to and including the closing
`>` (the first character of the body has already been consumed). -/
def tagClose : List Char → Option (List Char)
  | [] => none
  | c :: cs => if c == '>' then some cs else tagClose cs

/-- The `.replace(/<[^>]+>/g, ' ')` step: each tag becomes one space.
A lone final character (tag opener or not) is emitted unchanged. -/
def stripTagsF : Nat → List Char → List Char
  | _, [] => []
  | 0, s => s
  | _ + 1, [c] => [c]
  | fuel + 1, c :: d :: ds =>
    if c == '<' then
      if d == '>' then c :: stripTagsF fuel (d :: ds)
      else
        match tagClose ds with
        | some rest => ' ' :: stripTagsF fuel rest
        | none => c :: stripTagsF fuel (d :: ds)
    else c :: stripTagsF fuel (d :: ds)

/-- Tag-stripping pass. -/
def stripTags (s : List Char) : List Char := stripTagsF s.length s

/-- Global replace of the literal `pat` by `repl` (case-sensitive), the
entity-decoding steps.  As in `dropThroughCI`, dropping `pat.length - 1`
characters of the tail after a head match skips the matched text. -/
def replaceSubF (pat repl : List Char) : Nat → List Char → List Char
  | _, [] => []
  | 0, s => s
  | fuel + 1, c :: cs =>
    if pat.isPrefixOf (c :: cs) then
      repl ++ replaceSubF pat repl fuel (cs.drop (pat.length - 1))
    else c :: replaceSubF pat repl fuel cs

/-- Entity-decoding pass. -/
def replaceSub (pat repl : List Char) (s : List Char) : List Char :=
  replaceSubF pat repl s.length s

/-- The `extractTextContent` function of the source checker: elide script
and style blocks, strip remaining tags, decode the five handled entities,
and normalize whitespace. -/
def extractTextContent (html : List Char) : List Char :=
  let t1 := removeBlocks "<script".data "</script>".data html
  let t2 := removeBlocks "<style".data "</style>".data t1
  let t3 := stripTags t2
  let t4 := replaceSub "&nbsp;".data " ".data t3
  let t5 := replaceSub "&amp;".data "&".data t4
  let t6 := replaceSub "&lt;".data "<".data t5
  let t7 := replaceSub "&gt;".data ">".data t6
  let t8 := replaceSub "&quot;".data "\"".data t7
  trimChars (collapseWs t8)

/-! ## Change Detector (`checkSingleSource`) -/

/-- Change kinds of a `SourceChange`. -/
inductive ChangeTypeL
  | new
  | modified
  | unavailable
deriving DecidableEq

/-- Per-URL record of `SourceCheckState`: `{ hash, lastChecked, status }`. -/
structure UrlRec where
  hash : List Char
  lastChecked : List Char
  status : Nat
deriving DecidableEq

/-- The `SourceChange` record.  Optional fields default to absent, as in
the TypeScript interface. -/
structure SourceChangeL where
  apiKey : String
  apiName : String
  url : String
  description : String
  changeType : ChangeTypeL
  content : Option (List Char) := none
  previousHash : Option (List Char) := none
  currentHash : Option (List Char) := none
  previousStatus : Option Nat := none
  currentStatus : Option Nat := none
deriving DecidableEq

/-- Outcome of the network fetch inside `checkSingleSource`: either the
response body text with its HTTP status, or any failure (timeout, DNS,
transport error), which the source handles in one `catch`. -/
inductive FetchResult
  | success (body : List Char) (status : Nat)
  | failure
deriving DecidableEq

/-- The `checkSingleSource` function.  The network call is supplied as
`fetchResult`, the digest as `digest`, and the current ISO time string as
`now`; the function returns the new state-store record for the URL
together with the emitted change (if any), mirroring the source's
in-place `sourceState[url] = ...` update plus return value. -/
def checkSingleSource (digest : List Char → List Char) (now : List Char)
    (apiKey apiName url description : String)
    (fetchResult : FetchResult) (previousCheck : Option UrlRec) :
    UrlRec × Option SourceChangeL :=
  match fetchResult with
  | .success body status =>
    let hash := hashContent digest body
    let textContent := extractTextContent body
    let newRec : UrlRec := ⟨hash, now, status⟩
    match previousCheck with
    | none =>
      (newRec, some { apiKey, apiName, url, description, changeType := .new,
                      content := some textContent, currentHash := some hash,
                      currentStatus := some status })
    | some prev =>
      if prev.hash ≠ hash then
        (newRec, some { apiKey, apiName, url, description, changeType := .modified,
                        content := some textContent, previousHash := some prev.hash,
                        currentHash := some hash, previousStatus := some prev.status,
                        currentStatus := some status })
      else (newRec, none)
  | .failure =>
    let newRec : UrlRec := ⟨[], now, 0⟩
    match previousCheck with
    | some prev =>
      if prev.status ≠ 0 then
        (newRec, some { apiKey, apiName, url, description, changeType := .unavailable,
                        previousStatus := some prev.status, currentStatus := some 0 })
      else (newRec, none)
    | none => (newRec, none)

/-! ## Stage boundary types (types.ts, api-researcher.ts, engineer.ts) -/

/-- The `ImpactLevel` union type. -/
inductive ImpactLevel
  | high
  | medium
  | low
deriving DecidableEq

/-- The `ChangeType` union of the API researcher. -/
inductive ApiChangeType
  | deprecation
  | breaking
  | newFeature
  | maintenance
  | unknown
deriving DecidableEq

/-- An `ApiChange` entry of a `ProviderChangeSet`. -/
structure ApiChange where
  title : String
  summary : String
  type : ApiChangeType
  relevance : ImpactLevel
  sourceUrl : String
  date : Option String
deriving DecidableEq

/-- The `ApiResearcherOutput` (ProviderChangeSet). -/
structure ApiResearcherOutput where
  provider : String
  changes : List ApiChange
  noChangesDetected : Bool
deriving DecidableEq

/-- An `McpDependency` entry of a dependency profile. -/
structure McpDependency where
  api : String
  endpoints : List String
  critical : Bool
deriving DecidableEq

/-- The `McpResearcherOutput` (DependencyProfile). -/
structure McpResearcherOutput where
  mcp : String
  uses : List McpDependency
  purpose : String
deriving DecidableEq

/-- An `UpstreamApi` discovered for an MCP (discovery.ts). -/
structure UpstreamApi where
  name : String
  baseUrl : String
  source : String
deriving DecidableEq

/-- The `McpInfo` descriptor supplied by the discovery collaborator. -/
structure McpInfo where
  name : String
  path : String
  useCase : String
  targetAudience : String
  tools : List String
  upstreamApis : List UpstreamApi
deriving DecidableEq

/-! ## Stage 1 — API researcher (`analyzeApiChanges`, `analyzeProviderPages`)

The analysis-service call (`callLLM`) is modelled as a parameter
`llm : String → List Char → Option ApiResearcherOutput` taking the page
URL and content; `none` covers every failure mode of the boundary
(transport error, no text content, no JSON found, parse error). -/

/-- The `analyzeApiChanges` function for one page: on service failure an
empty change set with `noChangesDetected := true`; on success the parsed
changes with `sourceUrl` defaulted to the page URL when falsy (empty). -/
def analyzeApiChanges (llm : String → List Char → Option ApiResearcherOutput)
    (provider pageUrl : String) (pageContent : List Char) : ApiResearcherOutput :=
  match llm pageUrl pageContent with
  | none => { provider, changes := [], noChangesDetected := true }
  | some data =>
    let changes := data.changes.map (fun c =>
      { c with sourceUrl := if c.sourceUrl = "" then pageUrl else c.sourceUrl })
    { provider, changes,
      noChangesDetected := data.noChangesDetected || changes.length == 0 }

/-- The indexed filter of JavaScript's `Array.prototype.filter` with an
index argument, scanning from index `i`. -/
def filterWithIdx (p : Nat → ApiChange → Bool) (i : Nat) : List ApiChange → List ApiChange
  | [] => []
  | a :: as => if p i a then a :: filterWithIdx p (i + 1) as else filterWithIdx p (i + 1) as

/-- The title-based deduplication of `analyzeProviderPages`:
`allChanges.filter((change, index, self) => index === self.findIndex(c => c.title === change.title))`. -/
def dedupByTitle (l : List ApiChange) : List ApiChange :=
  filterWithIdx (fun i c => l.findIdx (fun c2 => c2.title == c.title) == i) 0 l

/-- The `analyzeProviderPages` function: per-page analysis, concatenation,
title dedup, and recomputed `noChangesDetected`. -/
def analyzeProviderPages (llm : String → List Char → Option ApiResearcherOutput)
    (provider : String) (pages : List (String × List Char)) : ApiResearcherOutput :=
  let allChanges := pages.flatMap (fun page =>
    (analyzeApiChanges llm provider page.1 page.2).changes)
  let uniqueChanges := dedupByTitle allChanges
  { provider, changes := uniqueChanges,
    noChangesDetected := uniqueChanges.length == 0 }

/-! ## Stage 2 — MCP researcher (`analyzeMcpDependencies`, `analyzeAllMcps`)

The cache is `McpResearcherCache`, a JavaScript object keyed by MCP name,
modelled as a finite map `String → Option McpCacheEntry`.  ISO timestamps
are modelled at their epoch-millisecond value (`new Date(ts).getTime()`),
so `now` is `Date.now()`.  The service call, together with the CLAUDE.md
and source-snippet prompt assembly it consumes, is a parameter
`llm : McpInfo → Option McpResearcherOutput` (`none` on any failure). -/

/-- A cache entry `{ data, timestamp }`. -/
structure McpCacheEntry where
  data : McpResearcherOutput
  timestamp : Int
deriving DecidableEq

/-- The cache object keyed by MCP name. -/
def McpResearcherCache : Type := String → Option McpCacheEntry

/-- `CACHE_DURATION_DAYS * 24 * 60 * 60 * 1000`, the freshness window. -/
def CACHE_DURATION_DAYS : Int := 30

/-- The `maxAge` milliseconds value computed in `analyzeMcpDependencies`. -/
def cacheMaxAgeMs : Int := CACHE_DURATION_DAYS * 24 * 60 * 60 * 1000

/-- The fallback profile built when the service fails: every discovered
upstream API becomes a critical dependency with no known endpoints, and
the purpose falls back to `'Unknown'` when `useCase` is falsy. -/
def fallbackProfile (mcpInfo : McpInfo) : McpResearcherOutput :=
  { mcp := mcpInfo.name,
    uses := mcpInfo.upstreamApis.map (fun api =>
      { api := api.name, endpoints := [], critical := true }),
    purpose := if mcpInfo.useCase = "" then "Unknown" else mcpInfo.useCase }

/-- The `analyzeMcpDependencies` function.  Returns the profile together
with a flag recording whether the analysis service was invoked. -/
def analyzeMcpDependencies (now : Int) (llm : McpInfo → Option McpResearcherOutput)
    (mcpInfo : McpInfo) (cache : Option McpResearcherCache) :
    McpResearcherOutput × Bool :=
  let hit : Option McpResearcherOutput :=
    match cache with
    | some c =>
      match c mcpInfo.name with
      | some cached =>
        if now - cached.timestamp < cacheMaxAgeMs then some cached.data else none
      | none => none
    | none => none
  match hit with
  | some data => (data, false)
  | none =>
    match llm mcpInfo with
    | some resp => ({ mcp := mcpInfo.name, uses := resp.uses, purpose := resp.purpose }, true)
    | none => (fallbackProfile mcpInfo, true)

/-- The `analyzeAllMcps` function: analyzes each MCP against the original
cache and unconditionally stores `{ data: result, timestamp: now }` into
the updated cache, starting from a copy of the incoming cache. -/
def analyzeAllMcps (now : Int) (llm : McpInfo → Option McpResearcherOutput)
    (mcps : List McpInfo) (cache : Option McpResearcherCache) :
    List McpResearcherOutput × McpResearcherCache :=
  let init : McpResearcherCache := fun k =>
    match cache with
    | some c => c k
    | none => none
  mcps.foldl
    (fun acc mcp =>
      let result := (analyzeMcpDependencies now llm mcp cache).1
      (acc.1 ++ [result],
       fun k => if k = mcp.name then some ⟨result, now⟩ else acc.2 k))
    ([], init)

/-! ## Stage 3 — Engineer (`decideAction`)

The single service call of a Stage 3 invocation is modelled by its
outcome `llm : Option EngineerOutput` (`none` for any failure of the
boundary); the returned Boolean records whether it was consulted. -/

/-- The `ActionType` union. -/
inductive ActionType
  | notify
  | urgent
  | none
deriving DecidableEq

/-- An `EngineerDetail` entry. -/
structure EngineerDetail where
  mcp : String
  changes : List String
  impact : ImpactLevel
deriving DecidableEq

/-- The `EngineerOutput` (Decision).  The summary is kept as a character
list so substring statements can be made about it. -/
structure EngineerOutput where
  action : ActionType
  summary : List Char
  affectedMcps : List String
  recommendedAction : String
  details : List EngineerDetail
deriving DecidableEq

/-- The `decideAction` function: short-circuit on an empty combined change
set, otherwise consult the service and fall back to a `notify` decision on
failure. -/
def decideAction (llm : Option EngineerOutput)
    (apiChanges : List ApiResearcherOutput)
    (mcpDependencies : List McpResearcherOutput) : EngineerOutput × Bool :=
  let allChanges := apiChanges.flatMap (fun a => a.changes)
  if allChanges.length = 0 then
    ({ action := .none,
       summary := "No API changes detected in monitored sources.".data,
       affectedMcps := [],
       recommendedAction := "No action needed",
       details := [] }, false)
  else
    match llm with
    | some data => (data, true)
    | Option.none =>
      ({ action := .notify,
         summary := (toString allChanges.length).data ++
           " API change(s) detected but automated analysis failed. Manual review recommended.".data,
         affectedMcps := [],
         recommendedAction := "Review API changes manually",
         details := [] }, true)

/-! ## State Store (`saveCheckState`) and a file-system trace model

`saveCheckState(statePath, state)` performs a single direct
`writeFile(statePath, JSON.stringify(state, null, 2))`.  To reason about
atomicity we model the sequence of file-system operations a save issues
and a crash semantics in which a write may be interrupted after any
number of characters while a rename is atomic.  `JSON.stringify` is an
external library call, passed in as `stringify`. -/

/-- The persisted `CheckState` aggregate. -/
structure CheckStateL where
  sources : String → Option (String → Option UrlRec)
  mcpCache : Option McpResearcherCache
  lastCheck : Option (List Char)

/-- A file-system operation. -/
inductive FsOp
  | write (path : String) (content : List Char)
  | rename (src dst : String)
deriving DecidableEq

/-- Whether an operation is a rename. -/
def FsOp.isRename : FsOp → Bool
  | .write _ _ => false
  | .rename _ _ => true

/-- The operations issued by `saveCheckState`: one direct write of the
full serialized state to the state path. -/
def saveCheckStateOps (stringify : CheckStateL → List Char)
    (statePath : String) (state : CheckStateL) : List FsOp :=
  [FsOp.write statePath (stringify state)]

/-- A file system: path to contents. -/
def FileSys : Type := String → Option (List Char)

/-- Applies one completed operation to the file system. -/
def applyOp (fs : FileSys) : FsOp → FileSys
  | .write p c => fun q => if q = p then some c else fs q
  | .rename s d => fun q =>
    if q = d then fs s else if q = s then none else fs q

/-- Applies a whole operation sequence. -/
def applyOps (ops : List FsOp) (fs : FileSys) : FileSys :=
  ops.foldl applyOp fs

/-- Applies the first `i` operations, then crashes during operation `i`:
an interrupted write leaves the first `k` characters of its content, while
an interrupted rename has no effect (renames are atomic). -/
def applyOpsCrash (ops : List FsOp) (i k : Nat) (fs : FileSys) : FileSys :=
  let fs' := applyOps (ops.take i) fs
  match ops.get? i with
  | some (.write p c) => fun q => if q = p then some (c.take k) else fs' q
  | some (.rename _ _) => fs'
  | Option.none => fs'

/-- Whitespace-edit equivalence of contents. -/
inductive WsEquiv : List Char → List Char → Prop
  | nil : WsEquiv [] []
  | cons (c : Char) {xs ys : List Char} :
      isWs c = false → WsEquiv xs ys → WsEquiv (c :: xs) (c :: ys)
  | wsrun {r1 r2 xs ys : List Char} :
      r1 ≠ [] → r2 ≠ [] →
      (∀ c ∈ r1, isWs c = true) → (∀ c ∈ r2, isWs c = true) →
      WsEquiv xs ys → WsEquiv (r1 ++ xs) (r2 ++ ys)

/-! ## Claims about the Change Detector -/

theorem replaceTimestampsF_nil (f : Nat) : replaceTimestampsF f [] = [] := by
  cases f <;> rfl

theorem replaceTimestampsF_fuel :
    ∀ (f1 : Nat) (s : List Char) (f2 : Nat), s.length ≤ f1 → s.length ≤ f2 →
      replaceTimestampsF f1 s = replaceTimestampsF f2 s := by
  intro f1
  induction f1 with
  | zero =>
    intro s f2 h1 _
    have hs : s = [] := List.length_eq_zero.mp (Nat.le_zero.mp h1)
    subst hs
    rw [replaceTimestampsF_nil, replaceTimestampsF_nil]
  | succ f1 ih =>
    intro s f2 h1 h2
    cases s with
    | nil => rw [replaceTimestampsF_nil, replaceTimestampsF_nil]
    | cons c cs =>
      cases f2 with
      | zero => simp at h2
      | succ f2 =>
        simp only [replaceTimestampsF]
        simp only [List.length_cons] at h1 h2
        have hdrop : ((c :: cs).drop 19).length ≤ cs.length := by
          simp only [List.length_drop, List.length_cons]; omega
        split
        · rw [ih ((c :: cs).drop 19) f2 (by omega) (by omega)]
        · rw [ih cs f2 (by omega) (by omega)]

/-- Unfolding of `replaceTimestamps` at a cons cell. -/
theorem replaceTimestamps_cons (c : Char) (cs : List Char) :
    replaceTimestamps (c :: cs) =
      if tsShape ((c :: cs).take 19) then
        tsRepl ++ replaceTimestamps ((c :: cs).drop 19)
      else c :: replaceTimestamps cs := by
  show replaceTimestampsF (cs.length + 1) (c :: cs) = _
  simp only [replaceTimestampsF]
  have hdrop : ((c :: cs).drop 19).length ≤ cs.length := by
    simp only [List.length_drop, List.length_cons]; omega
  split
  · rw [replaceTimestampsF_fuel cs.length _ ((c :: cs).drop 19).length hdrop (Nat.le_refl _)]
    rfl
  · rw [replaceTimestampsF_fuel cs.length cs cs.length (Nat.le_refl _) (Nat.le_refl _)]
    rfl


/-- C1: on a successful fetch, `checkSingleSource` classifies from the
prior state: with no prior record it emits exactly one `new` record
(never `modified`) carrying the extracted text content and the fresh
hash; with a prior record whose fingerprint equals the fresh one it emits
nothing; and with a differing prior fingerprint it emits exactly one
`modified` record with `previousHash` the stored hash, `currentHash` the
fresh hash, and the extracted content attached. -/
theorem claim1_success_classification (digest : List Char → List Char)
    (now : List Char) (apiKey apiName url description : String)
    (body : List Char) (status : Nat) (prev : Option UrlRec) :
    (prev = none →
      (checkSingleSource digest now apiKey apiName url description
          (.success body status) prev).2 =
        some { apiKey, apiName, url, description, changeType := .new,
               content := some (extractTextContent body),
               currentHash := some (hashContent digest body),
               currentStatus := some status }) ∧
    (∀ p, prev = some p → hashContent digest body = p.hash →
      (checkSingleSource digest now apiKey apiName url description
          (.success body status) prev).2 = none) ∧
    (∀ p, prev = some p → hashContent digest body ≠ p.hash →
      (checkSingleSource digest now apiKey apiName url description
          (.success body status) prev).2 =
        some { apiKey, apiName, url, description, changeType := .modified,
               content := some (extractTextContent body),
               previousHash := some p.hash,
               currentHash := some (hashContent digest body),
               previousStatus := some p.status,
               currentStatus := some status }) := by
  refine ⟨fun h => ?_, fun p hp he => ?_, fun p hp hne => ?_⟩
  · subst h; rfl
  · subst hp
    simp [checkSingleSource, ← he]
  · subst hp
    simp [checkSingleSource, Ne.symm hne]

/-- Witness for C1 at concrete inputs: all three classifications. -/
theorem claim1_success_classification_witness :
    ((checkSingleSource id "t".data "k" "n" "u" "d" (.success "x".data 200) none).2 =
      some { apiKey := "k", apiName := "n", url := "u", description := "d",
             changeType := .new, content := some (extractTextContent "x".data),
             currentHash := some (hashContent id "x".data),
             currentStatus := some 200 }) ∧
    ((checkSingleSource id "t".data "k" "n" "u" "d" (.success "x".data 200)
        (some ⟨hashContent id "x".data, "s".data, 200⟩)).2 = none) ∧
    ((checkSingleSource id "t".data "k" "n" "u" "d" (.success "x".data 200)
        (some ⟨"old".data, "s".data, 200⟩)).2 =
      some { apiKey := "k", apiName := "n", url := "u", description := "d",
             changeType := .modified, content := some (extractTextContent "x".data),
             previousHash := some "old".data,
             currentHash := some (hashContent id "x".data),
             previousStatus := some 200, currentStatus := some 200 }) := by
  refine ⟨?_, ?_, ?_⟩
  · exact (claim1_success_classification id "t".data "k" "n" "u" "d" "x".data 200 none).1 rfl
  · exact (claim1_success_classification id "t".data "k" "n" "u" "d" "x".data 200 _).2.1
      ⟨hashContent id "x".data, "s".data, 200⟩ rfl rfl
  · exact (claim1_success_classification id "t".data "k" "n" "u" "d" "x".data 200 _).2.2
      ⟨"old".data, "s".data, 200⟩ rfl (by decide)

/-- C7: on a failed fetch the stored record becomes status 0 (with empty
hash); a previously reachable (nonzero-status) record yields exactly one
`unavailable` change with `previousStatus` the prior status and
`currentStatus = 0`; an already-unreachable or never-seen URL yields no
record. -/
theorem claim7_failure_classification (digest : List Char → List Char)
    (now : List Char) (apiKey apiName url description : String)
    (prev : Option UrlRec) :
    ((checkSingleSource digest now apiKey apiName url description .failure prev).1 =
      ⟨[], now, 0⟩) ∧
    (∀ p, prev = some p → p.status ≠ 0 →
      (checkSingleSource digest now apiKey apiName url description .failure prev).2 =
        some { apiKey, apiName, url, description, changeType := .unavailable,
               previousStatus := some p.status, currentStatus := some 0 }) ∧
    (∀ p, prev = some p → p.status = 0 →
      (checkSingleSource digest now apiKey apiName url description .failure prev).2 =
        none) ∧
    (prev = none →
      (checkSingleSource digest now apiKey apiName url description .failure prev).2 =
        none) := by
  refine ⟨?_, fun p hp hne => ?_, fun p hp hz => ?_, fun h => ?_⟩
  · cases prev with
    | none => rfl
    | some p =>
      simp only [checkSingleSource]
      split <;> rfl
  · subst hp; simp [checkSingleSource, hne]
  · subst hp; simp [checkSingleSource, hz]
  · subst h; rfl

/-- Witness for C7 at concrete inputs. -/
theorem claim7_failure_classification_witness :
    ((checkSingleSource id "t".data "k" "n" "u" "d" .failure
        (some ⟨"h".data, "s".data, 200⟩)).1 = ⟨[], "t".data, 0⟩) ∧
    ((checkSingleSource id "t".data "k" "n" "u" "d" .failure
        (some ⟨"h".data, "s".data, 200⟩)).2 =
      some { apiKey := "k", apiName := "n", url := "u", description := "d",
             changeType := .unavailable, previousStatus := some 200,
             currentStatus := some 0 }) ∧
    ((checkSingleSource id "t".data "k" "n" "u" "d" .failure
        (some ⟨"h".data, "s".data, 0⟩)).2 = none) := by
  refine ⟨?_, ?_, ?_⟩
  · exact (claim7_failure_classification id "t".data "k" "n" "u" "d" _).1
  · exact (claim7_failure_classification id "t".data "k" "n" "u" "d" _).2.1
      ⟨"h".data, "s".data, 200⟩ rfl (by decide)
  · exact (claim7_failure_classification id "t".data "k" "n" "u" "d" _).2.2.1
      ⟨"h".data, "s".data, 0⟩ rfl rfl

/-- C10: a failed fetch stores the empty string as the URL's fingerprint,
so a later successful re-fetch whose content hashes back to the original
(nonempty) fingerprint `H` is reported as `modified` with
`previousHash = ""` and `currentHash = H` — a content-identical recovery
counts as a modification. -/
theorem claim10_recovery_reported_modified (digest : List Char → List Char)
    (now1 now2 : List Char) (apiKey apiName url description : String)
    (body : List Char) (status : Nat) (p : UrlRec)
    (hH : hashContent digest body = p.hash) (hne : p.hash ≠ []) :
    (checkSingleSource digest now1 apiKey apiName url description .failure (some p)).1 =
      ⟨[], now1, 0⟩ ∧
    (checkSingleSource digest now2 apiKey apiName url description
        (.success body status)
        (some (checkSingleSource digest now1 apiKey apiName url description
                 .failure (some p)).1)).2 =
      some { apiKey, apiName, url, description, changeType := .modified,
             content := some (extractTextContent body),
             previousHash := some [],
             currentHash := some p.hash,
             previousStatus := some 0,
             currentStatus := some status } := by
  have h1 : (checkSingleSource digest now1 apiKey apiName url description
      .failure (some p)).1 = ⟨[], now1, 0⟩ := by
    simp only [checkSingleSource]
    split <;> rfl
  refine ⟨h1, ?_⟩
  rw [h1]
  have hne' : ([] : List Char) ≠ hashContent digest body := by
    rw [hH]; exact fun h => hne h.symm
  simp [checkSingleSource, hne', hH, hne]

/-- Witness for C10 at concrete inputs: the URL previously had fingerprint
`normalizeContent "x"` and status 200, the fetch fails, and a later fetch
of the identical content is reported as `modified` from the empty hash. -/
theorem claim10_recovery_reported_modified_witness :
    (checkSingleSource id "t1".data "k" "n" "u" "d" .failure
        (some ⟨hashContent id "x".data, "s".data, 200⟩)).1 = ⟨[], "t1".data, 0⟩ ∧
    (checkSingleSource id "t2".data "k" "n" "u" "d" (.success "x".data 200)
        (some (checkSingleSource id "t1".data "k" "n" "u" "d" .failure
                 (some ⟨hashContent id "x".data, "s".data, 200⟩)).1)).2 =
      some { apiKey := "k", apiName := "n", url := "u", description := "d",
             changeType := .modified,
             content := some (extractTextContent "x".data),
             previousHash := some [],
             currentHash := some (hashContent id "x".data),
             previousStatus := some 0,
             currentStatus := some 200 } :=
  claim10_recovery_reported_modified id "t1".data "t2".data "k" "n" "u" "d"
    "x".data 200 ⟨hashContent id "x".data, "s".data, 200⟩ rfl (by decide)

/-! ## Claims about the dependency-profile cache (Stage 2) -/

/-- C2: a cached profile younger than the 30-day window is returned
unchanged without invoking the analysis service, while a stale entry,
a missing entry, or an absent cache all cause the service to be invoked
(with the fresh result or the fallback profile as output). -/
theorem claim2_cache_freshness (now : Int)
    (llm : McpInfo → Option McpResearcherOutput) (mcpInfo : McpInfo)
    (c : McpResearcherCache) (entry : McpCacheEntry)
    (hentry : c mcpInfo.name = some entry) :
    (now - entry.timestamp < cacheMaxAgeMs →
      analyzeMcpDependencies now llm mcpInfo (some c) = (entry.data, false)) ∧
    (cacheMaxAgeMs ≤ now - entry.timestamp →
      analyzeMcpDependencies now llm mcpInfo (some c) =
        (match llm mcpInfo with
         | some resp => { mcp := mcpInfo.name, uses := resp.uses, purpose := resp.purpose }
         | none => fallbackProfile mcpInfo, true)) ∧
    (∀ c' : McpResearcherCache, c' mcpInfo.name = none →
      (analyzeMcpDependencies now llm mcpInfo (some c')).2 = true) ∧
    ((analyzeMcpDependencies now llm mcpInfo none).2 = true) := by
  refine ⟨fun hfresh => ?_, fun hstale => ?_, fun c' hc' => ?_, ?_⟩
  · simp [analyzeMcpDependencies, hentry, hfresh]
  · have : ¬ (now - entry.timestamp < cacheMaxAgeMs) := by omega
    simp only [analyzeMcpDependencies, hentry, if_neg this]
    cases llm mcpInfo <;> rfl
  · simp only [analyzeMcpDependencies, hc']
    cases llm mcpInfo <;> rfl
  · simp only [analyzeMcpDependencies]
    cases llm mcpInfo <;> rfl

/-- Witness for C2 at concrete inputs: a fresh hit is returned as-is
without a service call, and a stale entry triggers the service. -/
theorem claim2_cache_freshness_witness :
    (analyzeMcpDependencies 1000
        (fun _ => none)
        ⟨"m", "/m", "demo", "devs", [], []⟩
        (some (fun k => if k = "m" then
          some ⟨⟨"m", [], "cached purpose"⟩, 500⟩ else none)) =
      (⟨"m", [], "cached purpose"⟩, false)) ∧
    ((analyzeMcpDependencies (500 + cacheMaxAgeMs)
        (fun _ => none)
        ⟨"m", "/m", "demo", "devs", [], []⟩
        (some (fun k => if k = "m" then
          some ⟨⟨"m", [], "cached purpose"⟩, 500⟩ else none))) =
      (fallbackProfile ⟨"m", "/m", "demo", "devs", [], []⟩, true)) := by
  constructor
  · exact (claim2_cache_freshness 1000 (fun _ => none)
      ⟨"m", "/m", "demo", "devs", [], []⟩ _ ⟨⟨"m", [], "cached purpose"⟩, 500⟩
      (by simp)).1 (by decide)
  · exact (claim2_cache_freshness (500 + cacheMaxAgeMs) (fun _ => none)
      ⟨"m", "/m", "demo", "devs", [], []⟩ _ ⟨⟨"m", [], "cached purpose"⟩, 500⟩
      (by simp)).2.1 (by simp)

/-- Counterexample to C3 as stated: a Stage 2 run satisfied from a valid
cache hit does not leave the stored entry unchanged — `analyzeAllMcps`
unconditionally rewrites the entry, refreshing its timestamp to the time
of the run even though the profile data is returned from the cache. -/
theorem claim3_counterexample :
    let mcp : McpInfo := ⟨"m", "/m", "demo", "devs", [], []⟩
    let cached : McpCacheEntry := ⟨⟨"m", [], "cached purpose"⟩, 0⟩
    let c0 : McpResearcherCache := fun k => if k = "m" then some cached else none
    let run := analyzeAllMcps 1 (fun _ => none) [mcp] (some c0)
    -- the entry was a valid (fresh) hit and its data was returned ...
    ((1 : Int) - cached.timestamp < cacheMaxAgeMs) ∧
    run.1 = [cached.data] ∧
    -- ... yet the stored entry after the run differs from the stored entry before
    run.2 "m" = some ⟨cached.data, 1⟩ ∧
    run.2 "m" ≠ c0 "m" := by
  refine ⟨by decide, ?_, ?_, ?_⟩ <;> simp [analyzeAllMcps, analyzeMcpDependencies,
    cacheMaxAgeMs, CACHE_DURATION_DAYS]

/-- C3 (amended): a consumer's cache entry is only ever wholly replaced,
never merged: after a Stage 2 run over a consumer, the stored entry is
exactly the run's result paired with the run's timestamp.  On a valid
cache hit the profile data half is the cached data, returned verbatim,
but the timestamp half is refreshed to the time of the run (rather than
left unchanged, as the original claim stated); entries of other consumers
are untouched. -/
theorem claim3_amended_cache_entry_replaced (now : Int)
    (llm : McpInfo → Option McpResearcherOutput) (mcpInfo : McpInfo)
    (c : McpResearcherCache) (entry : McpCacheEntry)
    (hentry : c mcpInfo.name = some entry)
    (hfresh : now - entry.timestamp < cacheMaxAgeMs) :
    (analyzeAllMcps now llm [mcpInfo] (some c)).1 = [entry.data] ∧
    (analyzeAllMcps now llm [mcpInfo] (some c)).2 mcpInfo.name =
      some ⟨entry.data, now⟩ ∧
    (∀ k, k ≠ mcpInfo.name →
      (analyzeAllMcps now llm [mcpInfo] (some c)).2 k = c k) := by
  have hdeps : analyzeMcpDependencies now llm mcpInfo (some c) = (entry.data, false) := by
    simp [analyzeMcpDependencies, hentry, hfresh]
  refine ⟨?_, ?_, fun k hk => ?_⟩
  · simp [analyzeAllMcps, hdeps]
  · simp [analyzeAllMcps, hdeps]
  · simp [analyzeAllMcps, hdeps, hk]

/-- Witness for the amended C3 at concrete inputs. -/
theorem claim3_amended_cache_entry_replaced_witness :
    (analyzeAllMcps 1 (fun _ => none) [⟨"m", "/m", "demo", "devs", [], []⟩]
        (some (fun k => if k = "m" then some ⟨⟨"m", [], "p"⟩, 0⟩ else none))).1 =
      [⟨"m", [], "p"⟩] ∧
    (analyzeAllMcps 1 (fun _ => none) [⟨"m", "/m", "demo", "devs", [], []⟩]
        (some (fun k => if k = "m" then some ⟨⟨"m", [], "p"⟩, 0⟩ else none))).2 "m" =
      some ⟨⟨"m", [], "p"⟩, 1⟩ ∧
    (analyzeAllMcps 1 (fun _ => none) [⟨"m", "/m", "demo", "devs", [], []⟩]
        (some (fun k => if k = "m" then some ⟨⟨"m", [], "p"⟩, 0⟩ else none))).2 "other" =
      (fun k => if k = "m" then some (⟨⟨"m", [], "p"⟩, 0⟩ : McpCacheEntry) else none) "other" := by
  have h := claim3_amended_cache_entry_replaced 1 (fun _ => none)
    ⟨"m", "/m", "demo", "devs", [], []⟩
    (fun k => if k = "m" then some ⟨⟨"m", [], "p"⟩, 0⟩ else none)
    ⟨⟨"m", [], "p"⟩, 0⟩ (by simp) (by decide)
  exact ⟨h.1, h.2.1, h.2.2 "other" (by decide)⟩

/-! ## Claims about the engineer decision (Stage 3) -/

/-- C4: with an empty combined change set, `decideAction` returns the
`none` decision with empty affected list and empty details without
consulting the analysis service, whatever the dependency profiles. -/
theorem claim4_empty_changes_short_circuit (llm : Option EngineerOutput)
    (apiChanges : List ApiResearcherOutput)
    (mcpDependencies : List McpResearcherOutput)
    (hempty : apiChanges.flatMap (fun a => a.changes) = []) :
    decideAction llm apiChanges mcpDependencies =
      ({ action := .none,
         summary := "No API changes detected in monitored sources.".data,
         affectedMcps := [],
         recommendedAction := "No action needed",
         details := [] }, false) := by
  simp [decideAction, hempty]

/-- Witness for C4 at concrete inputs: one provider with an empty change
list and a nonempty dependency list. -/
theorem claim4_empty_changes_short_circuit_witness :
    decideAction (some ⟨.urgent, [], [], "x", []⟩)
      [⟨"prov", [], true⟩] [⟨"m", [], "p"⟩] =
      ({ action := .none,
         summary := "No API changes detected in monitored sources.".data,
         affectedMcps := [],
         recommendedAction := "No action needed",
         details := [] }, false) :=
  claim4_empty_changes_short_circuit (some ⟨.urgent, [], [], "x", []⟩)
    [⟨"prov", [], true⟩] [⟨"m", [], "p"⟩] (by simp)

/-- C5: with a nonempty combined change set and a failed service call,
`decideAction` returns the fallback decision: action `notify` (never
`none`, and the function is total, so no error escapes), empty affected
list, and a summary noting that automated analysis failed and recommending
manual review. -/
theorem claim5_service_failure_notify
    (apiChanges : List ApiResearcherOutput)
    (mcpDependencies : List McpResearcherOutput)
    (hne : apiChanges.flatMap (fun a => a.changes) ≠ []) :
    (decideAction none apiChanges mcpDependencies).1.action = .notify ∧
    (decideAction none apiChanges mcpDependencies).1.action ≠ .none ∧
    (decideAction none apiChanges mcpDependencies).1.summary =
      (toString (apiChanges.flatMap (fun a => a.changes)).length).data ++
        " API change(s) detected but automated analysis failed. Manual review recommended.".data ∧
    (∃ u v, u ++ "automated analysis failed".data ++ v =
      (decideAction none apiChanges mcpDependencies).1.summary) ∧
    (∃ u v, u ++ "Manual review recommended".data ++ v =
      (decideAction none apiChanges mcpDependencies).1.summary) := by
  have hlen : ¬ (apiChanges.flatMap (fun a => a.changes)).length = 0 :=
    fun h => hne (List.eq_nil_of_length_eq_zero h)
  have hd : decideAction none apiChanges mcpDependencies =
      ({ action := .notify,
         summary := (toString (apiChanges.flatMap (fun a => a.changes)).length).data ++
           " API change(s) detected but automated analysis failed. Manual review recommended.".data,
         affectedMcps := [],
         recommendedAction := "Review API changes manually",
         details := [] }, true) := by
    simp only [decideAction]
    rw [if_neg hlen]
  refine ⟨by rw [hd], ?_, by rw [hd], ?_, ?_⟩
  · rw [hd]
    exact fun h => ActionType.noConfusion h
  · refine ⟨(toString (apiChanges.flatMap (fun a => a.changes)).length).data ++
      " API change(s) detected but ".data,
      ". Manual review recommended.".data, ?_⟩
    rw [hd]
    show _ ++ "automated analysis failed".data ++ _ =
      (toString (apiChanges.flatMap (fun a => a.changes)).length).data ++
        " API change(s) detected but automated analysis failed. Manual review recommended.".data
    rw [List.append_assoc, List.append_assoc]
    congr 1
  · refine ⟨(toString (apiChanges.flatMap (fun a => a.changes)).length).data ++
      " API change(s) detected but automated analysis failed. ".data,
      ".".data, ?_⟩
    rw [hd]
    show _ ++ "Manual review recommended".data ++ _ =
      (toString (apiChanges.flatMap (fun a => a.changes)).length).data ++
        " API change(s) detected but automated analysis failed. Manual review recommended.".data
    rw [List.append_assoc, List.append_assoc]
    congr 1

/-- Witness for C5 at a concrete input with one detected change. -/
theorem claim5_service_failure_notify_witness :
    (decideAction none
        [⟨"prov", [⟨"tt", "ss", .breaking, .high, "uu", none⟩], false⟩] []).1.action =
      .notify ∧
    (∃ u v, u ++ "automated analysis failed".data ++ v =
      (decideAction none
        [⟨"prov", [⟨"tt", "ss", .breaking, .high, "uu", none⟩], false⟩] []).1.summary) := by
  have h := claim5_service_failure_notify
    [⟨"prov", [⟨"tt", "ss", .breaking, .high, "uu", none⟩], false⟩] [] (by simp)
  exact ⟨h.1, h.2.2.2.1⟩

/-! ## Claims about state persistence -/

/-- Counterexample to C9 as stated: `saveCheckState` is a single direct
`writeFile` to the state path with no temp file and no rename, so an
interrupted save can leave content that is neither the previous good
state nor the new serialization.  Here the serializer stands for
`JSON.stringify(state, null, 2)`, whose output for any real state is
likewise a multi-character text. -/
theorem claim9_counterexample :
    (saveCheckStateOps (fun _ => "serialized-new-state".data) "state.json"
        ⟨fun _ => none, none, none⟩ =
      [FsOp.write "state.json" "serialized-new-state".data]) ∧
    (∀ op ∈ saveCheckStateOps (fun _ => "serialized-new-state".data) "state.json"
        ⟨fun _ => none, none, none⟩, op.isRename = false) ∧
    (applyOpsCrash
        (saveCheckStateOps (fun _ => "serialized-new-state".data) "state.json"
          ⟨fun _ => none, none, none⟩) 0 3
        (fun q => if q = "state.json" then some "previous-good-state".data else none)
        "state.json" = some "ser".data) ∧
    (applyOpsCrash
        (saveCheckStateOps (fun _ => "serialized-new-state".data) "state.json"
          ⟨fun _ => none, none, none⟩) 0 3
        (fun q => if q = "state.json" then some "previous-good-state".data else none)
        "state.json" ≠ some "previous-good-state".data) ∧
    (applyOpsCrash
        (saveCheckStateOps (fun _ => "serialized-new-state".data) "state.json"
          ⟨fun _ => none, none, none⟩) 0 3
        (fun q => if q = "state.json" then some "previous-good-state".data else none)
        "state.json" ≠ some "serialized-new-state".data) := by
  refine ⟨rfl, ?_, by decide, by decide, by decide⟩
  intro op hop
  simp only [saveCheckStateOps, List.mem_singleton] at hop
  subst hop
  rfl

/-- C9 (amended): a completed `saveCheckState` is a full rewrite — the
state path afterwards holds exactly the fresh serialization — but the
save is one direct write with no temp-file-and-rename step, so a crash
after `k` characters leaves the `k`-character prefix of the new
serialization at the state path; the previously good content is not
protected. -/
theorem claim9_amended_direct_write (stringify : CheckStateL → List Char)
    (statePath : String) (state : CheckStateL) (fs : FileSys) :
    saveCheckStateOps stringify statePath state =
      [FsOp.write statePath (stringify state)] ∧
    (∀ op ∈ saveCheckStateOps stringify statePath state, op.isRename = false) ∧
    applyOps (saveCheckStateOps stringify statePath state) fs statePath =
      some (stringify state) ∧
    (∀ k, applyOpsCrash (saveCheckStateOps stringify statePath state) 0 k fs statePath =
      some ((stringify state).take k)) := by
  refine ⟨rfl, ?_, ?_, fun k => ?_⟩
  · intro op hop
    simp only [saveCheckStateOps, List.mem_singleton] at hop
    subst hop
    rfl
  · simp [saveCheckStateOps, applyOps, applyOp]
  · simp [saveCheckStateOps, applyOpsCrash, applyOps]

/-! ## Claims about the Stage 1 merge (`analyzeProviderPages`) -/

theorem filterWithIdx_sublist (p : Nat → ApiChange → Bool) :
    ∀ (l : List ApiChange) (i : Nat), List.Sublist (filterWithIdx p i l) l := by
  intro l
  induction l with
  | nil => intro i; simp [filterWithIdx]
  | cons a as ih =>
    intro i
    simp only [filterWithIdx]
    split
    · exact (ih (i + 1)).cons₂ a
    · exact (ih (i + 1)).cons a

theorem mem_filterWithIdx {p : Nat → ApiChange → Bool} {x : ApiChange} :
    ∀ {l : List ApiChange} {i : Nat}, x ∈ filterWithIdx p i l →
      ∃ k, l.get? k = some x ∧ p (i + k) x = true := by
  intro l
  induction l with
  | nil => intro i h; simp [filterWithIdx] at h
  | cons a as ih =>
    intro i h
    simp only [filterWithIdx] at h
    by_cases hp : p i a
    · rw [if_pos hp] at h
      rcases List.mem_cons.mp h with rfl | h'
      · exact ⟨0, rfl, by simpa using hp⟩
      · obtain ⟨k, hk, hpk⟩ := ih h'
        refine ⟨k + 1, by simpa using hk, ?_⟩
        have harith : i + 1 + k = i + (k + 1) := by omega
        rwa [harith] at hpk
    · rw [if_neg hp] at h
      obtain ⟨k, hk, hpk⟩ := ih h
      refine ⟨k + 1, by simpa using hk, ?_⟩
      have harith : i + 1 + k = i + (k + 1) := by omega
      rwa [harith] at hpk

theorem mem_filterWithIdx_of {p : Nat → ApiChange → Bool} {x : ApiChange} :
    ∀ {l : List ApiChange} {i k : Nat}, l.get? k = some x → p (i + k) x = true →
      x ∈ filterWithIdx p i l := by
  intro l
  induction l with
  | nil => intro i k h _; simp at h
  | cons a as ih =>
    intro i k h hp
    cases k with
    | zero =>
      have ha : a = x := by simpa using h
      subst ha
      simp only [filterWithIdx]
      rw [if_pos (by simpa using hp)]
      exact List.mem_cons_self _ _
    | succ k =>
      have h' : as.get? k = some x := by simpa using h
      have hp' : p (i + 1 + k) x = true := by
        have harith : i + (k + 1) = i + 1 + k := by omega
        rwa [harith] at hp
      simp only [filterWithIdx]
      split
      · exact List.mem_cons_of_mem _ (ih h' hp')
      · exact ih h' hp'

theorem pairwise_filterWithIdx {R : ApiChange → ApiChange → Prop}
    {p : Nat → ApiChange → Bool} :
    ∀ {l : List ApiChange} {i : Nat},
      (∀ k1 k2 x1 x2, l.get? k1 = some x1 → l.get? k2 = some x2 →
        p (i + k1) x1 = true → p (i + k2) x2 = true → k1 < k2 → R x1 x2) →
      (filterWithIdx p i l).Pairwise R := by
  intro l
  induction l with
  | nil => intro i _; simp [filterWithIdx]
  | cons a as ih =>
    intro i H
    have Htail : ∀ k1 k2 x1 x2, as.get? k1 = some x1 → as.get? k2 = some x2 →
        p (i + 1 + k1) x1 = true → p (i + 1 + k2) x2 = true → k1 < k2 → R x1 x2 := by
      intro k1 k2 x1 x2 h1 h2 hp1 hp2 hlt
      refine H (k1 + 1) (k2 + 1) x1 x2 (by simpa using h1) (by simpa using h2)
        ?_ ?_ (by omega)
      · have harith : i + (k1 + 1) = i + 1 + k1 := by omega
        rwa [harith]
      · have harith : i + (k2 + 1) = i + 1 + k2 := by omega
        rwa [harith]
    simp only [filterWithIdx]
    by_cases hp : p i a
    · rw [if_pos hp]
      refine List.Pairwise.cons ?_ (ih Htail)
      intro y hy
      obtain ⟨k, hk, hpk⟩ := mem_filterWithIdx hy
      have hpk' : p (i + (k + 1)) y = true := by
        have harith : i + (k + 1) = i + 1 + k := by omega
        rwa [harith]
      exact H 0 (k + 1) a y rfl (by simpa using hk)
        (by simpa using hp) hpk' (by omega)
    · rw [if_neg hp]
      exact ih Htail

/-- C8: the merged `ProviderChangeSet` of `analyzeProviderPages` is the
concatenation of the per-page change lists deduplicated by exact title
match: it is an order-preserving sublist of the collected entries, its
titles are pairwise distinct, every collected title is represented, each
kept entry is the first occurrence of its title, and `noChangesDetected`
is `true` exactly when the merged change list is empty. -/
theorem claim8_provider_merge (llm : String → List Char → Option ApiResearcherOutput)
    (provider : String) (pages : List (String × List Char)) :
    (analyzeProviderPages llm provider pages).changes =
      dedupByTitle (pages.flatMap fun pg =>
        (analyzeApiChanges llm provider pg.1 pg.2).changes) ∧
    List.Sublist (analyzeProviderPages llm provider pages).changes
      (pages.flatMap fun pg => (analyzeApiChanges llm provider pg.1 pg.2).changes) ∧
    (analyzeProviderPages llm provider pages).changes.Pairwise
      (fun a b => a.title ≠ b.title) ∧
    (∀ c ∈ (pages.flatMap fun pg => (analyzeApiChanges llm provider pg.1 pg.2).changes),
      ∃ d ∈ (analyzeProviderPages llm provider pages).changes, d.title = c.title) ∧
    (∀ d ∈ (analyzeProviderPages llm provider pages).changes,
      ∃ k, (pages.flatMap fun pg =>
              (analyzeApiChanges llm provider pg.1 pg.2).changes).get? k = some d ∧
        (pages.flatMap fun pg => (analyzeApiChanges llm provider pg.1 pg.2).changes).findIdx
          (fun c2 => c2.title == d.title) = k) ∧
    ((analyzeProviderPages llm provider pages).noChangesDetected = true ↔
      (analyzeProviderPages llm provider pages).changes = []) := by
  have h0 : (analyzeProviderPages llm provider pages).changes =
      dedupByTitle (pages.flatMap fun pg =>
        (analyzeApiChanges llm provider pg.1 pg.2).changes) := rfl
  refine ⟨h0, ?_, ?_, ?_, ?_, ?_⟩
  · rw [h0]
    exact filterWithIdx_sublist _ _ 0
  · rw [h0]
    refine pairwise_filterWithIdx ?_
    intro k1 k2 x1 x2 h1 h2 hp1 hp2 hlt
    simp only [Nat.zero_add, beq_iff_eq] at hp1 hp2
    intro htitle
    have hfun : (fun c2 : ApiChange => c2.title == x1.title) =
        (fun c2 : ApiChange => c2.title == x2.title) := by
      funext c2; rw [htitle]
    rw [hfun, hp2] at hp1
    omega
  · intro c hc
    have hex : ∃ x ∈ (pages.flatMap fun pg =>
        (analyzeApiChanges llm provider pg.1 pg.2).changes),
        (fun c2 : ApiChange => c2.title == c.title) x = true := ⟨c, hc, by simp⟩
    have hlt := List.findIdx_lt_length_of_exists hex
    set A := pages.flatMap fun pg =>
      (analyzeApiChanges llm provider pg.1 pg.2).changes with hA
    set k := A.findIdx (fun c2 : ApiChange => c2.title == c.title) with hk
    have hmem : A.get? k = some A[k] := List.get?_eq_get hlt
    have hdP : (A[k]).title = c.title := by
      have := List.findIdx_getElem (w := hlt)
      simpa using this
    have hsame : (fun c2 : ApiChange => c2.title == (A[k]).title) =
        (fun c2 : ApiChange => c2.title == c.title) := by
      funext c2; rw [hdP]
    refine ⟨A[k], ?_, hdP⟩
    rw [h0]
    refine mem_filterWithIdx_of (k := k) hmem ?_
    simp only [Nat.zero_add, hsame, beq_iff_eq]
  · intro d hd
    rw [h0] at hd
    obtain ⟨k, hk, hpk⟩ := mem_filterWithIdx hd
    refine ⟨k, hk, ?_⟩
    simpa using hpk
  · show ((dedupByTitle _).length == 0) = true ↔ _
    rw [h0]
    simp [List.length_eq_zero]

/-! ## Claims about the fingerprint (`hashContent`)

"Whitespace-only edits" are formalized by `WsEquiv`: two contents are
related when they agree character-for-character outside whitespace and
each maximal whitespace run may be replaced by any other nonempty
whitespace run. -/

theorem tsShape_length {t : List Char} (h : tsShape t = true) : t.length = 19 := by
  have h' := h
  simp only [tsShape, Bool.and_eq_true, beq_iff_eq] at h'
  exact h'.1

theorem tsShape_patCharAt {t : List Char} (h : tsShape t = true) :
    ∀ i, i < 19 → patCharAt i (t.getD i ' ') = true := by
  intro i hi
  have h' := h
  simp only [tsShape, Bool.and_eq_true, List.all_eq_true] at h'
  exact h'.2 i (List.mem_range.mpr hi)

theorem patCharAt_space (i : Nat) : patCharAt i ' ' = false := by
  unfold patCharAt
  split_ifs <;> decide

theorem patCharAt_not_ws (i : Nat) (c : Char) (h : patCharAt i c = true) :
    isWs c = false := by
  unfold patCharAt at h
  split_ifs at h
  · have hc : c = '-' := by simpa using h
    subst hc; decide
  · have hc : c = 'T' := by simpa using h
    subst hc; decide
  · have hc : c = ':' := by simpa using h
    subst hc; decide
  · simp only [isDigitChar, Bool.and_eq_true, decide_eq_true_eq] at h
    obtain ⟨hge, _⟩ := h
    cases hiw : isWs c with
    | false => rfl
    | true =>
      exfalso
      simp only [isWs, Bool.or_eq_true, beq_iff_eq] at hiw
      rcases hiw with ((((rfl | rfl) | rfl) | rfl) | rfl) | rfl <;> exact absurd hge (by decide)

theorem tsShape_not_ws {t : List Char} (h : tsShape t = true) :
    ∀ c ∈ t, isWs c = false := by
  intro c hc
  obtain ⟨i, hi⟩ := List.mem_iff_get?.mp hc
  have hlen := tsShape_length h
  have hlt : i < t.length := by
    by_contra hge
    push_neg at hge
    rw [List.get?_eq_none.mpr hge] at hi
    cases hi
  have hp := tsShape_patCharAt h i (by omega)
  have hgd : t.getD i ' ' = c := by
    rw [List.getD_eq_get?, hi]
    rfl
  rw [hgd] at hp
  exact patCharAt_not_ws i c hp

theorem tsShape_ne_nil {t : List Char} (h : tsShape t = true) : t ≠ [] := by
  intro hnil
  have := tsShape_length h
  rw [hnil] at this
  simp at this

theorem ts_take_19_le {u v : List Char}
    (h : tsShape ((u ++ ' ' :: v).take 19) = true) : 19 ≤ u.length := by
  by_contra hlt
  push_neg at hlt
  have hp := tsShape_patCharAt h u.length (by omega)
  have hget : ((u ++ ' ' :: v).take 19).getD u.length ' ' = ' ' := by
    rw [List.getD_eq_get?, List.get?_take (by omega : u.length < 19),
        List.get?_append_right (Nat.le_refl _)]
    simp
  rw [hget, patCharAt_space] at hp
  cases hp

/-- The timestamp scan distributes over a space separator: a space can
occur at no position of the pattern, so no match crosses it. -/
theorem rt_split : ∀ (u v : List Char),
    replaceTimestamps (u ++ ' ' :: v) =
      replaceTimestamps u ++ ' ' :: replaceTimestamps v := by
  suffices hsuff : ∀ (n : Nat) (u v : List Char), u.length ≤ n →
      replaceTimestamps (u ++ ' ' :: v) =
        replaceTimestamps u ++ ' ' :: replaceTimestamps v by
    intro u v
    exact hsuff u.length u v (Nat.le_refl _)
  intro n
  induction n with
  | zero =>
    intro u v hu
    have hnil : u = [] := List.length_eq_zero.mp (Nat.le_zero.mp hu)
    subst hnil
    rw [List.nil_append, replaceTimestamps_cons]
    have hsh : ¬ tsShape ((' ' :: v).take 19) = true := by
      intro hh
      have h19 := ts_take_19_le (u := []) (v := v) (by simpa using hh)
      simp at h19
    rw [if_neg hsh]
    rfl
  | succ n ih =>
    intro u v hu
    cases u with
    | nil =>
      rw [List.nil_append, replaceTimestamps_cons]
      have hsh : ¬ tsShape ((' ' :: v).take 19) = true := by
        intro hh
        have h19 := ts_take_19_le (u := []) (v := v) (by simpa using hh)
        simp at h19
      rw [if_neg hsh]
      rfl
    | cons c cs =>
      rw [List.cons_append, replaceTimestamps_cons]
      by_cases hsh : tsShape ((c :: (cs ++ ' ' :: v)).take 19) = true
      · have h19 : 19 ≤ (c :: cs).length := by
          refine ts_take_19_le (u := c :: cs) (v := v) ?_
          rw [List.cons_append]
          exact hsh
        have htake2 : (c :: (cs ++ ' ' :: v)).take 19 = (c :: cs).take 19 := by
          rw [← List.cons_append, List.take_append_eq_append_take,
              Nat.sub_eq_zero_of_le h19, List.take_zero, List.append_nil]
        have hdrop2 : (c :: (cs ++ ' ' :: v)).drop 19 = (c :: cs).drop 19 ++ ' ' :: v := by
          rw [← List.cons_append, List.drop_append_eq_append_drop,
              Nat.sub_eq_zero_of_le h19, List.drop_zero]
        rw [if_pos hsh, hdrop2]
        have hlen : ((c :: cs).drop 19).length ≤ n := by
          simp only [List.length_drop, List.length_cons]
          simp only [List.length_cons] at hu
          omega
        rw [ih _ v hlen]
        rw [replaceTimestamps_cons, if_pos (htake2 ▸ hsh)]
        simp [List.append_assoc]
      · rw [if_neg hsh]
        have hsh2 : ¬ tsShape ((c :: cs).take 19) = true := by
          intro hh
          have hlen19 : ((c :: cs).take 19).length = 19 := tsShape_length hh
          rw [List.length_take] at hlen19
          have h19 : 19 ≤ (c :: cs).length := by omega
          apply hsh
          have htake2 : (c :: (cs ++ ' ' :: v)).take 19 = (c :: cs).take 19 := by
            rw [← List.cons_append, List.take_append_eq_append_take,
                Nat.sub_eq_zero_of_le h19, List.take_zero, List.append_nil]
          rw [htake2]
          exact hh
        rw [replaceTimestamps_cons, if_neg hsh2]
        have hlen : cs.length ≤ n := by
          simp only [List.length_cons] at hu
          omega
        rw [ih cs v hlen]
        rfl

/-- A timestamp at the head of the scan is replaced as a whole. -/
theorem rt_ts {t : List Char} (ht : tsShape t = true) (b : List Char) :
    replaceTimestamps (t ++ b) = tsRepl ++ replaceTimestamps b := by
  have hlen : t.length = 19 := tsShape_length ht
  cases t with
  | nil => simp at hlen
  | cons c cs =>
    rw [List.cons_append, replaceTimestamps_cons]
    have htake : (c :: (cs ++ b)).take 19 = c :: cs := by
      rw [← List.cons_append, List.take_append_eq_append_take, hlen,
          Nat.sub_self, List.take_zero, List.append_nil,
          List.take_of_length_le (by rw [hlen])]
    have hdrop : (c :: (cs ++ b)).drop 19 = b := by
      rw [← List.cons_append, List.drop_append_eq_append_drop, hlen,
          Nat.sub_self, List.drop_zero,
          List.drop_eq_nil_of_le (by rw [hlen]), List.nil_append]
    rw [if_pos (by rw [htake]; exact ht), hdrop]

theorem cwa_ws_true {c : Char} (hc : isWs c = true) (l : List Char) :
    collapseWsAux true (c :: l) = collapseWsAux true l := by
  simp [collapseWsAux, hc]

theorem cwa_ws_false {c : Char} (hc : isWs c = true) (l : List Char) :
    collapseWsAux false (c :: l) = ' ' :: collapseWsAux true l := by
  simp [collapseWsAux, hc]

theorem cwa_nonws {c : Char} (hc : isWs c = false) (p : Bool) (l : List Char) :
    collapseWsAux p (c :: l) = c :: collapseWsAux false l := by
  simp [collapseWsAux, hc]

/-- A nonempty whitespace-free block passes through the collapse
unchanged, leaving the scan in the non-whitespace state. -/
theorem collapseWsAux_nonws :
    ∀ (t : List Char), (∀ c ∈ t, isWs c = false) → t ≠ [] →
      ∀ (p : Bool) (rest : List Char),
        collapseWsAux p (t ++ rest) = t ++ collapseWsAux false rest := by
  intro t
  induction t with
  | nil => intro _ hne; exact absurd rfl hne
  | cons c t' ih =>
    intro hns _ p rest
    have hc : isWs c = false := hns c (List.mem_cons_self _ _)
    rw [List.cons_append, cwa_nonws hc]
    cases t' with
    | nil => rw [List.nil_append, List.cons_append, List.nil_append]
    | cons e t'' =>
      rw [ih (fun d hd => hns d (List.mem_cons_of_mem _ hd)) (by simp) false rest]
      simp only [List.cons_append]

/-- Collapsing an input that ends in a whitespace character yields a
fixed prefix followed by a single space, independent of what follows. -/
theorem collapseWsAux_endsWs :
    ∀ (a0 : List Char) (w : Char), isWs w = true → ∀ (p : Bool),
      (∃ U, ∀ rest, collapseWsAux p (a0 ++ w :: rest) =
        U ++ ' ' :: collapseWsAux true rest) ∨
      (p = true ∧ ∀ rest, collapseWsAux p (a0 ++ w :: rest) =
        collapseWsAux true rest) := by
  intro a0
  induction a0 with
  | nil =>
    intro w hw p
    cases p with
    | false =>
      left
      refine ⟨[], fun rest => ?_⟩
      rw [List.nil_append, cwa_ws_false hw, List.nil_append]
    | true =>
      right
      exact ⟨rfl, fun rest => by rw [List.nil_append, cwa_ws_true hw]⟩
  | cons c a0' ih =>
    intro w hw p
    by_cases hc : isWs c = true
    · cases p with
      | true =>
        rcases ih w hw true with ⟨U, hU⟩ | ⟨_, hU⟩
        · left
          exact ⟨U, fun rest => by rw [List.cons_append, cwa_ws_true hc, hU rest]⟩
        · right
          exact ⟨rfl, fun rest => by rw [List.cons_append, cwa_ws_true hc, hU rest]⟩
      | false =>
        rcases ih w hw true with ⟨U, hU⟩ | ⟨_, hU⟩
        · left
          refine ⟨' ' :: U, fun rest => ?_⟩
          rw [List.cons_append, cwa_ws_false hc, hU rest, List.cons_append]
        · left
          refine ⟨[], fun rest => ?_⟩
          rw [List.cons_append, cwa_ws_false hc, hU rest, List.nil_append]
    · have hc' : isWs c = false := by
        revert hc; cases isWs c <;> simp
      rcases ih w hw false with ⟨U, hU⟩ | ⟨hfalse, _⟩
      · left
        refine ⟨c :: U, fun rest => ?_⟩
        rw [List.cons_append, cwa_nonws hc', hU rest, List.cons_append]
      · exact absurd hfalse (by simp)

theorem collapseWs_split (a0 : List Char) (w : Char) (hw : isWs w = true) :
    ∃ U, ∀ rest, collapseWs (a0 ++ w :: rest) =
      U ++ ' ' :: collapseWsAux true rest := by
  rcases collapseWsAux_endsWs a0 w hw false with ⟨U, hU⟩ | ⟨hfalse, _⟩
  · exact ⟨U, hU⟩
  · exact absurd hfalse (by simp)

/-- Whitespace-equivalent contents collapse to the same string. -/
theorem collapseWsAux_wsEquiv {x y : List Char} (h : WsEquiv x y) :
    ∀ p, collapseWsAux p x = collapseWsAux p y := by
  induction h with
  | nil => intro p; rfl
  | cons c hc _ ih =>
    intro p
    rw [cwa_nonws hc, cwa_nonws hc, ih false]
  | wsrun hr1 hr2 hws1 hws2 _ ih =>
    intro p
    have haux : ∀ (r : List Char), r ≠ [] → (∀ c ∈ r, isWs c = true) →
        ∀ (t : List Char),
        collapseWsAux false (r ++ t) = ' ' :: collapseWsAux true t ∧
        collapseWsAux true (r ++ t) = collapseWsAux true t := by
      intro r
      induction r with
      | nil => intro hne _ _; exact absurd rfl hne
      | cons d r' ihr =>
        intro _ hws t
        have hd : isWs d = true := hws d (List.mem_cons_self _ _)
        constructor
        · rw [List.cons_append, cwa_ws_false hd]
          cases r' with
          | nil => rw [List.nil_append]
          | cons e r'' =>
            rw [(ihr (by simp) (fun d2 hd2 => hws d2 (List.mem_cons_of_mem _ hd2)) t).2]
        · rw [List.cons_append, cwa_ws_true hd]
          cases r' with
          | nil => rw [List.nil_append]
          | cons e r'' =>
            exact (ihr (by simp) (fun d2 hd2 => hws d2 (List.mem_cons_of_mem _ hd2)) t).2
    cases p with
    | false =>
      rw [(haux _ hr1 hws1 _).1, (haux _ hr2 hws2 _).1, ih true]
    | true =>
      rw [(haux _ hr1 hws1 _).2, (haux _ hr2 hws2 _).2, ih true]

/-- Substituting one timestamp for another behind a whitespace (or at the
start of the content) does not change the normalized content. -/
theorem normalize_ts_subst {a b t1 t2 : List Char}
    (h1 : tsShape t1 = true) (h2 : tsShape t2 = true)
    (hflank : a = [] ∨ ∃ a0 w, a = a0 ++ [w] ∧ isWs w = true) :
    normalizeContent (a ++ t1 ++ b) = normalizeContent (a ++ t2 ++ b) := by
  rcases hflank with rfl | ⟨a0, w, rfl, hw⟩
  · rw [List.nil_append, List.nil_append]
    unfold normalizeContent collapseWs
    rw [collapseWsAux_nonws t1 (tsShape_not_ws h1) (tsShape_ne_nil h1) false b,
        collapseWsAux_nonws t2 (tsShape_not_ws h2) (tsShape_ne_nil h2) false b,
        rt_ts h1, rt_ts h2]
  · obtain ⟨U, hU⟩ := collapseWs_split a0 w hw
    have e1 : a0 ++ [w] ++ t1 ++ b = a0 ++ w :: (t1 ++ b) := by
      simp [List.append_assoc]
    have e2 : a0 ++ [w] ++ t2 ++ b = a0 ++ w :: (t2 ++ b) := by
      simp [List.append_assoc]
    unfold normalizeContent
    rw [e1, e2, hU (t1 ++ b), hU (t2 ++ b),
        collapseWsAux_nonws t1 (tsShape_not_ws h1) (tsShape_ne_nil h1) true b,
        collapseWsAux_nonws t2 (tsShape_not_ws h2) (tsShape_ne_nil h2) true b,
        rt_split U (t1 ++ collapseWsAux false b),
        rt_split U (t2 ++ collapseWsAux false b),
        rt_ts h1, rt_ts h2]

/-- Counterexample to C6 as stated: two contents identical except in an
ISO-8601-like timestamp substring need not fingerprint equally.  When the
text before the substituted timestamp itself ends in timestamp-like
characters (here 18 characters of a partial timestamp), the leftmost
regex match consumes that prefix together with the first character of the
substituted timestamp, and the normalized contents — hence the
fingerprints — differ. -/
theorem claim6_counterexample :
    tsShape "2024-01-01T10:00:00".data = true ∧
    tsShape "1999-12-31T23:59:59".data = true ∧
    normalizeContent ("2024-01-01T10:00:0".data ++ "2024-01-01T10:00:00".data ++ []) ≠
      normalizeContent ("2024-01-01T10:00:0".data ++ "1999-12-31T23:59:59".data ++ []) ∧
    hashContent id ("2024-01-01T10:00:0".data ++ "2024-01-01T10:00:00".data ++ []) ≠
      hashContent id ("2024-01-01T10:00:0".data ++ "1999-12-31T23:59:59".data ++ []) := by
  refine ⟨by decide, by decide, by decide, by decide⟩

/-- C6 (amended): the fingerprint is deterministic; it is stable under
whitespace-only edits (`WsEquiv`); and it is stable under substituting
one ISO-8601-like timestamp substring for another provided the character
immediately preceding the substituted timestamp is whitespace (or the
timestamp sits at the start of the content) — without that proviso the
replacement scan can merge the timestamp with preceding timestamp-like
text, as the counterexample shows. -/
theorem claim6_amended_fingerprint_stability (digest : List Char → List Char)
    (x y a b t1 t2 : List Char)
    (hxy : WsEquiv x y) (h1 : tsShape t1 = true) (h2 : tsShape t2 = true)
    (hflank : a = [] ∨ ∃ a0 w, a = a0 ++ [w] ∧ isWs w = true) :
    hashContent digest x = hashContent digest x ∧
    hashContent digest x = hashContent digest y ∧
    hashContent digest (a ++ t1 ++ b) = hashContent digest (a ++ t2 ++ b) := by
  refine ⟨rfl, ?_, ?_⟩
  · unfold hashContent normalizeContent collapseWs
    rw [collapseWsAux_wsEquiv hxy false]
  · unfold hashContent
    rw [normalize_ts_subst h1 h2 hflank]

/-- Witness for the amended C6: a whitespace edit (double space to single
space) and a timestamp substitution behind `"Updated: "` both preserve
the fingerprint at concrete inputs. -/
theorem claim6_amended_fingerprint_stability_witness :
    hashContent id ('a' :: ' ' :: ' ' :: 'b' :: []) =
      hashContent id ('a' :: ' ' :: 'b' :: []) ∧
    hashContent id ("Updated: ".data ++ "2024-01-01T10:00:00".data ++ " end".data) =
      hashContent id ("Updated: ".data ++ "2024-06-02T11:30:00".data ++ " end".data) := by
  have hb : WsEquiv ('b' :: []) ('b' :: []) :=
    WsEquiv.cons 'b' (by decide) WsEquiv.nil
  have hrun : WsEquiv ((' ' :: ' ' :: []) ++ ('b' :: [])) ((' ' :: []) ++ ('b' :: [])) :=
    WsEquiv.wsrun (by decide) (by decide) (by decide) (by decide) hb
  have hws : WsEquiv ('a' :: ' ' :: ' ' :: 'b' :: []) ('a' :: ' ' :: 'b' :: []) :=
    WsEquiv.cons 'a' (by decide) hrun
  have h := claim6_amended_fingerprint_stability id
    ('a' :: ' ' :: ' ' :: 'b' :: []) ('a' :: ' ' :: 'b' :: [])
    "Updated: ".data " end".data
    "2024-01-01T10:00:00".data "2024-06-02T11:30:00".data
    hws (by decide) (by decide)
    (Or.inr ⟨"Updated:".data, ' ', by decide, by decide⟩)
  exact ⟨h.2.1, h.2.2⟩

end McpMonitoring
